import Mathlib

/-!
Shallow embedding of src/DataAnalyzer.py: an HL7-style message parser with a
generic full-table view (parse_full_hl7), two variant detail parsers
(parse_details_hl7_orline / parse_details_hl7_wish), and the batch aggregation
done in main (pandas concat of per-file tables, distinct "ID PAT" lookup).

Python strings are modelled as Lean Strings; Python dicts as insertion-ordered
association lists; pandas DataFrames as a list of column names plus rows of
optional cells (a missing cell, pandas NaN, is none).
-/

set_option maxHeartbeats 1000000

namespace DA

/-- Whitespace characters removed by Python str.strip (the characters for which
Python str.isspace holds). -/
def pyIsSpace (c : Char) : Bool :=
  c == ' ' || c == '\t' || c == '\n' || c == '\r' || c == '\x0b' || c == '\x0c' ||
  c == '\x1c' || c == '\x1d' || c == '\x1e' || c == '\x1f' || c == '\x85' || c == '\xa0' ||
  c == ' ' || (decide (' ' ≤ c) && decide (c ≤ ' ')) ||
  c == ' ' || c == ' ' || c == ' ' || c == ' ' || c == '　'

/-- Python str.strip: remove leading and trailing whitespace. -/
def pyStrip (s : String) : String :=
  String.mk (((s.data.dropWhile pyIsSpace).reverse.dropWhile pyIsSpace).reverse)

/-- Line-boundary characters recognised by Python str.splitlines. -/
def isLineBreak (c : Char) : Bool :=
  c == '\n' || c == '\r' || c == '\x0b' || c == '\x0c' ||
  c == '\x1c' || c == '\x1d' || c == '\x1e' || c == '\x85' || c == ' ' || c == ' '

/-- Helper for pySplitlines: acc holds the current (reversed) line; a line break
emits the current line; "\r\n" counts as a single break; a trailing break does
not create an extra empty line. -/
def pySplitlinesAux : List Char → List Char → List String
  | [], acc => if acc.isEmpty then [] else [String.mk acc.reverse]
  | '\r' :: '\n' :: rest, acc => String.mk acc.reverse :: pySplitlinesAux rest []
  | c :: rest, acc =>
    if isLineBreak c then String.mk acc.reverse :: pySplitlinesAux rest []
    else pySplitlinesAux rest (c :: acc)

/-- Python str.splitlines. -/
def pySplitlines (s : String) : List String := pySplitlinesAux s.data []

/-- Helper for pySplitChar. -/
def pySplitCharAux (sep : Char) : List Char → List Char → List String
  | [], acc => [String.mk acc.reverse]
  | c :: rest, acc =>
    if c == sep then String.mk acc.reverse :: pySplitCharAux sep rest []
    else pySplitCharAux sep rest (c :: acc)

/-- Python str.split(sep) for a single-character separator. -/
def pySplitChar (sep : Char) (s : String) : List String := pySplitCharAux sep s.data []

/-- Helper for pySplitOnce: scan for the first occurrence of sep. -/
def pySplitOnceAux (sep : List Char) : List Char → List Char → List String
  | [], acc => [String.mk acc.reverse]
  | c :: rest, acc =>
    if sep.isPrefixOf (c :: rest) then
      [String.mk acc.reverse, String.mk ((c :: rest).drop sep.length)]
    else pySplitOnceAux sep rest (c :: acc)

/-- Python str.split(sep, 1): split at the first occurrence of sep only. -/
def pySplitOnce (sep : String) (s : String) : List String :=
  pySplitOnceAux sep.data s.data []

/-- Python slice s[a:b] for 0 ≤ a ≤ b (out-of-range indices clamp). -/
def pySlice (s : String) (a b : Nat) : String := String.mk ((s.data.drop a).take (b - a))

/-- A Python dict with string keys and values, modelled as an insertion-ordered
association list with unique keys maintained by dinsert. -/
abbrev Dict := List (String × String)

/-- Python dict assignment d[k] = v: replace the value in place if the key
exists, else append the new pair at the end. -/
def dinsert : Dict → String → String → Dict
  | [], k, v => [(k, v)]
  | p :: d, k, v => if p.1 == k then (k, v) :: d else p :: dinsert d k v

/-- Python dict lookup: none when the key is absent. -/
def dget : Dict → String → Option String
  | [], _ => none
  | p :: d, k => if p.1 == k then some p.2 else dget d k

/-- The attribute name written as "Type d'hospitalisation" in the source. -/
def typeHospKey : String := "Type d\x27hospitalisation"

/-- The loop body of parse_details_hl7_orline (src/DataAnalyzer.py lines 35-85),
acting on the pipe-split fields of one already-stripped line. -/
def orlineSeg (data : Dict) (champs : List String) : Dict :=
  let segment := champs.headD ""
  if segment = "PID" then
    if champs.length > 2 then dinsert data "ID PAT" (champs.getD 2 "") else data
  else if segment = "PV1" then
    let d1 := if champs.length > 2 then dinsert data "Admission Entree" (champs.getD 2 "") else data
    if champs.length > 18 then dinsert d1 "ID Sejour" (champs.getD 18 "") else d1
  else if segment = "SCH" then
    let d1 :=
      if champs.length > 1 then
        dinsert data "ID Operation" ((pySplitChar '^' (champs.getD 1 "")).headD "")
      else data
    if champs.length > 11 then
      let sousChamps := pySplitChar '^' (champs.getD 11 "")
      if sousChamps.length > 3 then
        let dt := sousChamps.getD 3 ""
        if dt.length ≥ 8 then
          let dateStr := pySlice dt 0 8
          dinsert d1 "Dat Operation"
            (pySlice dateStr 6 8 ++ "/" ++ pySlice dateStr 4 6 ++ "/" ++ pySlice dateStr 0 4)
        else d1
      else d1
    else d1
  else if segment = "OBX" then
    if champs.length > 1 then
      if champs.getD 1 "" = "2" then
        if champs.length > 5 then dinsert data "Cod Service Entree" (champs.getD 5 "") else data
      else data
    else data
  else if segment = "AIL" then
    if champs.length > 3 then
      let champAil := champs.getD 3 ""
      if champAil.data.contains '.' then
        let splittedDot := pySplitOnce "." champAil
        let ailAfterDot := if splittedDot.length > 1 then splittedDot.getD 1 "" else ""
        let splittedCaret := pySplitOnce "^^^" ailAfterDot
        let d1 := dinsert data "Cod Service Entree" (pyStrip (splittedCaret.headD ""))
        if splittedCaret.length > 1 then
          let baseService := pyStrip ((pySplitChar '^' (splittedCaret.getD 1 "")).headD "")
          dinsert d1 "Service Entree" ("^^^" ++ baseService)
        else dinsert d1 "Service Entree" ""
      else
        dinsert (dinsert data "Cod Service Entree" champAil) "Service Entree" ""
    else data
  else if segment = "PV2" then
    if (dget data typeHospKey).isNone then
      dinsert data typeHospKey "(Donnée correcte extraite de PV1-2)"
    else data
  else data

/-- One iteration of the ORLine loop: strip the line, split on pipes, dispatch. -/
def orlineLine (data : Dict) (ligne : String) : Dict :=
  orlineSeg data (pySplitChar '|' (pyStrip ligne))

/-- parse_details_hl7_orline from src/DataAnalyzer.py. -/
def parse_details_hl7_orline (msg : String) : Dict :=
  (pySplitlines (pyStrip msg)).foldl orlineLine []

/-- The loop body of parse_details_hl7_wish (src/DataAnalyzer.py lines 105-135),
acting on the pipe-split fields of one already-stripped line. -/
def wishSeg (data : Dict) (champs : List String) : Dict :=
  let segment := champs.headD ""
  if segment = "MSH" then
    if champs.length > 6 then
      let dtStr := champs.getD 6 ""
      if dtStr.length ≥ 8 then
        let annee := pySlice dtStr 0 4
        let mois := pySlice dtStr 4 6
        let jour := pySlice dtStr 6 8
        let d1 := dinsert data "Date Message" (jour ++ "/" ++ mois ++ "/" ++ annee)
        if dtStr.length ≥ 12 then
          dinsert d1 "Heure Message" (pySlice dtStr 8 10 ++ ":" ++ pySlice dtStr 10 12)
        else dinsert d1 "Heure Message" ""
      else data
    else data
  else if segment = "PID" then
    let d1 := if champs.length > 3 then dinsert data "ID PAT" (champs.getD 3 "") else data
    let d2 :=
      if champs.length > 7 then
        let dobStr := champs.getD 7 ""
        if dobStr.length ≥ 8 then
          dinsert d1 "Date Naissance"
            (pySlice dobStr 6 8 ++ "/" ++ pySlice dobStr 4 6 ++ "/" ++ pySlice dobStr 0 4)
        else d1
      else d1
    if champs.length > 8 then dinsert d2 "Sexe" (champs.getD 8 "") else d2
  else data

/-- One iteration of the WISH loop: strip the line, split on pipes, dispatch. -/
def wishLine (data : Dict) (ligne : String) : Dict :=
  wishSeg data (pySplitChar '|' (pyStrip ligne))

/-- parse_details_hl7_wish from src/DataAnalyzer.py. -/
def parse_details_hl7_wish (msg : String) : Dict :=
  (pySplitlines (pyStrip msg)).foldl wishLine []

/-- The PID arm of the ORLine loop with Python list indexing made explicit:
an out-of-bounds index (Python IndexError) yields none. -/
def orlinePidE (data : Dict) (champs : List String) : Option Dict :=
  if champs.length > 2 then do
    let v ← champs[2]?
    pure (dinsert data "ID PAT" v)
  else pure data

/-- The PV1 arm of the ORLine loop with explicit indexing. -/
def orlinePv1E (data : Dict) (champs : List String) : Option Dict := do
  let d1 ← if champs.length > 2 then do
      let v ← champs[2]?
      pure (dinsert data "Admission Entree" v)
    else pure data
  if champs.length > 18 then do
    let v ← champs[18]?
    pure (dinsert d1 "ID Sejour" v)
  else pure d1

/-- The SCH arm of the ORLine loop with explicit indexing. -/
def orlineSchE (data : Dict) (champs : List String) : Option Dict := do
  let d1 ← if champs.length > 1 then do
      let c1 ← champs[1]?
      let idOp ← (pySplitChar '^' c1)[0]?
      pure (dinsert data "ID Operation" idOp)
    else pure data
  if champs.length > 11 then do
    let c11 ← champs[11]?
    let sousChamps := pySplitChar '^' c11
    if sousChamps.length > 3 then do
      let dt ← sousChamps[3]?
      if dt.length ≥ 8 then
        let dateStr := pySlice dt 0 8
        pure (dinsert d1 "Dat Operation"
          (pySlice dateStr 6 8 ++ "/" ++ pySlice dateStr 4 6 ++ "/" ++ pySlice dateStr 0 4))
      else pure d1
    else pure d1
  else pure d1

/-- The OBX arm of the ORLine loop with explicit indexing. -/
def orlineObxE (data : Dict) (champs : List String) : Option Dict :=
  if champs.length > 1 then do
    let c1 ← champs[1]?
    if c1 = "2" then
      if champs.length > 5 then do
        let v ← champs[5]?
        pure (dinsert data "Cod Service Entree" v)
      else pure data
    else pure data
  else pure data

/-- The AIL arm of the ORLine loop with explicit indexing. -/
def orlineAilE (data : Dict) (champs : List String) : Option Dict :=
  if champs.length > 3 then do
    let champAil ← champs[3]?
    if champAil.data.contains '.' then do
      let splittedDot := pySplitOnce "." champAil
      let ailAfterDot ← if splittedDot.length > 1 then splittedDot[1]? else pure ""
      let splittedCaret := pySplitOnce "^^^" ailAfterDot
      let c0 ← splittedCaret[0]?
      let d1 := dinsert data "Cod Service Entree" (pyStrip c0)
      if splittedCaret.length > 1 then do
        let c1 ← splittedCaret[1]?
        let b0 ← (pySplitChar '^' c1)[0]?
        pure (dinsert d1 "Service Entree" ("^^^" ++ pyStrip b0))
      else pure (dinsert d1 "Service Entree" "")
    else
      pure (dinsert (dinsert data "Cod Service Entree" champAil) "Service Entree" "")
  else pure data

/-- The PV2 arm of the ORLine loop (no indexing). -/
def orlinePv2E (data : Dict) : Option Dict :=
  if (dget data typeHospKey).isNone then
    pure (dinsert data typeHospKey "(Donnée correcte extraite de PV1-2)")
  else pure data

/-- The ORLine loop body with every Python list indexing made explicit: an
out-of-bounds index (Python IndexError) yields none. Agreement with orlineSeg
shows the code never raises. -/
def orlineSegE (data : Dict) (champs : List String) : Option Dict := do
  let segment ← champs[0]?
  if segment = "PID" then orlinePidE data champs
  else if segment = "PV1" then orlinePv1E data champs
  else if segment = "SCH" then orlineSchE data champs
  else if segment = "OBX" then orlineObxE data champs
  else if segment = "AIL" then orlineAilE data champs
  else if segment = "PV2" then orlinePv2E data
  else pure data

/-- One iteration of the ORLine loop under the explicit-error semantics. -/
def orlineLineE (data : Dict) (ligne : String) : Option Dict :=
  orlineSegE data (pySplitChar '|' (pyStrip ligne))

/-- parse_details_hl7_orline under the explicit-error semantics. -/
def parse_details_hl7_orlineE (msg : String) : Option Dict :=
  (pySplitlines (pyStrip msg)).foldlM orlineLineE []

/-- The MSH arm of the WISH loop with explicit indexing. -/
def wishMshE (data : Dict) (champs : List String) : Option Dict :=
  if champs.length > 6 then do
    let dtStr ← champs[6]?
    if dtStr.length ≥ 8 then
      let annee := pySlice dtStr 0 4
      let mois := pySlice dtStr 4 6
      let jour := pySlice dtStr 6 8
      let d1 := dinsert data "Date Message" (jour ++ "/" ++ mois ++ "/" ++ annee)
      if dtStr.length ≥ 12 then
        pure (dinsert d1 "Heure Message" (pySlice dtStr 8 10 ++ ":" ++ pySlice dtStr 10 12))
      else pure (dinsert d1 "Heure Message" "")
    else pure data
  else pure data

/-- The PID arm of the WISH loop with explicit indexing. -/
def wishPidE (data : Dict) (champs : List String) : Option Dict := do
  let d1 ← if champs.length > 3 then do
      let v ← champs[3]?
      pure (dinsert data "ID PAT" v)
    else pure data
  let d2 ← if champs.length > 7 then do
      let dobStr ← champs[7]?
      if dobStr.length ≥ 8 then
        pure (dinsert d1 "Date Naissance"
          (pySlice dobStr 6 8 ++ "/" ++ pySlice dobStr 4 6 ++ "/" ++ pySlice dobStr 0 4))
      else pure d1
    else pure d1
  if champs.length > 8 then do
    let v ← champs[8]?
    pure (dinsert d2 "Sexe" v)
  else pure d2

/-- The WISH loop body with every Python list indexing made explicit. -/
def wishSegE (data : Dict) (champs : List String) : Option Dict := do
  let segment ← champs[0]?
  if segment = "MSH" then wishMshE data champs
  else if segment = "PID" then wishPidE data champs
  else pure data

/-- One iteration of the WISH loop under the explicit-error semantics. -/
def wishLineE (data : Dict) (ligne : String) : Option Dict :=
  wishSegE data (pySplitChar '|' (pyStrip ligne))

/-- parse_details_hl7_wish under the explicit-error semantics. -/
def parse_details_hl7_wishE (msg : String) : Option Dict :=
  (pySplitlines (pyStrip msg)).foldlM wishLineE []

/-- Decimal digits of a positive n, most significant first; fuel-structured
recursion (fuel ≥ n suffices). -/
def decDigitsAux : Nat → Nat → List Nat
  | 0, _ => []
  | fuel + 1, n => if n = 0 then [] else decDigitsAux fuel (n / 10) ++ [n % 10]

/-- Decimal digit sequence of n, as Python str renders a nonnegative int. -/
def decDigitsNat (n : Nat) : List Nat := if n = 0 then [0] else decDigitsAux n n

/-- The character of a decimal digit. -/
def digitToChar (d : Nat) : Char := Char.ofNat (48 + d)

/-- Python str(n) for a natural number. -/
def decStr (n : Nat) : String := String.mk ((decDigitsNat n).map digitToChar)

/-- Column label built by parse_full_hl7 for 0-based field index i. -/
def colName (i : Nat) : String := "Field " ++ decStr (i + 1)

/-- A pandas DataFrame of strings: named columns and rows of cells; a cell is
none when it holds NaN (the value pandas fills for an absent column). -/
structure Table where
  cols : List String
  rows : List (List (Option String))
deriving Repr, DecidableEq

/-- parse_full_hl7 from src/DataAnalyzer.py: split each line of the stripped
text on pipes, right-pad every row with empty strings to the maximum field
count, and label the columns. Python max() raises ValueError on an empty
sequence, hence none when the text yields no lines. -/
def parse_full_hl7 (msg : String) : Option Table :=
  let rowsL := (pySplitlines (pyStrip msg)).map (fun line => pySplitChar '|' line)
  match rowsL with
  | [] => none
  | r0 :: rs =>
    let maxFields := ((r0 :: rs).map List.length).foldl max 0
    let padded := (r0 :: rs).map (fun row => row ++ List.replicate (maxFields - row.length) "")
    some ⟨(List.range maxFields).map colName, padded.map (fun row => row.map some)⟩

/-- df_full["Fichier"] = file name: append a file-name column (main line 191). -/
def addFichier (t : Table) (name : String) : Table :=
  ⟨t.cols ++ ["Fichier"], t.rows.map (fun r => r ++ [some name])⟩

/-- Cell of a row under a column name, for pandas reindexing (none = NaN). -/
def rowLookup (tcols : List String) (r : List (Option String)) (c : String) : Option String :=
  match (tcols.zip r).find? (fun p => p.1 == c) with
  | some p => p.2
  | none => none

/-- Union of the tables' column names in order of first appearance, as
pd.concat(..., sort=False) aligns columns. -/
def colsUnion (ts : List Table) : List String :=
  ts.foldl (fun acc t => acc ++ t.cols.filter (fun c => ! acc.contains c)) []

/-- pd.concat(ts, ignore_index=True, sort=False): every row realigned to the
column union, cells of columns absent from its own table filled with NaN. -/
def concatTables (ts : List Table) : Table :=
  let cols := colsUnion ts
  ⟨cols, ts.foldr (fun t acc => t.rows.map (fun r => cols.map (rowLookup t.cols r)) ++ acc) []⟩

/-- The per-file loop of main (lines 182-192): parse each decoded file into a
Full Table tagged with its file name; a failing parse aborts, as the uncaught
Python exception would. -/
def buildTables : List (String × String) → Option (List Table)
  | [] => some []
  | (name, text) :: rest =>
    match parse_full_hl7 text, buildTables rest with
    | some t, some ts => some (addFichier t name :: ts)
    | _, _ => none

/-- The combined Full Table of main (lines 200-201): pd.concat of the per-file
tables; no table when there are no files or when a file fails to parse. -/
def fullPipeline (files : List (String × String)) : Option Table :=
  match buildTables files with
  | some [] => none
  | some ts => some (concatTables ts)
  | none => none

/-- Order-preserving de-duplication (pandas Series.unique keeps first-seen
order). -/
def dedupFirst (l : List String) : List String :=
  l.foldl (fun acc x => if x ∈ acc then acc else acc ++ [x]) []

/-- The distinct-patient-id lookup of main (lines 213-222): when some record
has an "ID PAT" key the column exists; its non-NaN values (records lacking the
key contribute NaN, which dropna removes) are de-duplicated in first-seen
order. When no record has the key, the warning branch is taken (none). -/
def distinctPatientIds (records : List Dict) : Option (List String) :=
  if records.any (fun r => (dget r "ID PAT").isSome) then
    some (dedupFirst (records.filterMap (fun r => dget r "ID PAT")))
  else none

/-- The value denoted by a big-endian decimal digit sequence. -/
def decVal (l : List Nat) : Nat := l.foldl (fun a d => 10 * a + d) 0

/-- The maximum pipe-split field count over the lines of one message, as
computed inside parse_full_hl7. -/
def msgMaxFields (text : String) : Nat :=
  ((pySplitlines (pyStrip text)).map (fun l => (pySplitChar '|' l).length)).foldl max 0

/-- The "Field 1" … "Field m" column labels of a table with m field columns. -/
def fieldCols (m : Nat) : List String := (List.range m).map colName

/-! ### Basic lemmas about the dict model and the string primitives -/

theorem dget_dinsert_self (d : Dict) (k v : String) : dget (dinsert d k v) k = some v := by
  induction d with
  | nil => simp [dinsert, dget]
  | cons p d ih =>
    by_cases h : p.1 = k
    · simp [dinsert, dget, h]
    · simp [dinsert, dget, h, ih]

theorem dget_dinsert_ne (d : Dict) (k k' v : String) (h : k' ≠ k) :
    dget (dinsert d k v) k' = dget d k' := by
  induction d with
  | nil => simp [dinsert, dget, Ne.symm h]
  | cons p d ih =>
    by_cases hp : p.1 = k
    · simp [dinsert, dget, hp, Ne.symm h]
    · by_cases hq : p.1 = k'
      · simp [dinsert, dget, hp, hq, h]
      · simp [dinsert, dget, hp, hq, ih]

theorem pySplitCharAux_ne_nil (sep : Char) (l acc : List Char) :
    pySplitCharAux sep l acc ≠ [] := by
  induction l generalizing acc with
  | nil => simp [pySplitCharAux]
  | cons c rest ih =>
    simp only [pySplitCharAux]
    split
    · simp
    · exact ih _

theorem pySplitChar_ne_nil (sep : Char) (s : String) : pySplitChar sep s ≠ [] :=
  pySplitCharAux_ne_nil sep s.data []

theorem pySplitOnceAux_ne_nil (sep : List Char) (l acc : List Char) :
    pySplitOnceAux sep l acc ≠ [] := by
  induction l generalizing acc with
  | nil => simp [pySplitOnceAux]
  | cons c rest ih =>
    simp only [pySplitOnceAux]
    split
    · simp
    · exact ih _

theorem pySplitOnce_ne_nil (sep s : String) : pySplitOnce sep s ≠ [] :=
  pySplitOnceAux_ne_nil sep.data s.data []

theorem getElem0_eq_headD (l : List String) (h : l ≠ []) : l[0]? = some (l.headD "") := by
  cases l with
  | nil => exact absurd rfl h
  | cons a t => simp

theorem getElem?_eq_getD (l : List String) (i : Nat) (h : i < l.length) :
    l[i]? = some (l.getD i "") := by
  rw [List.getElem?_eq_getElem h, List.getD_eq_getElem l "" h]

theorem pySplitOnceAux_dot_length (l acc : List Char) (h : '.' ∈ l) :
    (pySplitOnceAux ['.'] l acc).length = 2 := by
  induction l generalizing acc with
  | nil => simp at h
  | cons c rest ih =>
    by_cases hc : c = '.'
    · subst hc
      have hpre : (['.'].isPrefixOf ('.' :: rest)) = true := by
        simp [List.isPrefixOf]
      rw [pySplitOnceAux, hpre]
      rfl
    · have hpre : (['.'].isPrefixOf (c :: rest)) = false := by
        simp [List.isPrefixOf, hc, Ne.symm hc]
      rw [pySplitOnceAux, hpre]
      simp only [Bool.false_eq_true, if_false]
      have h2 : '.' ∈ rest := by
        rcases List.mem_cons.mp h with h1 | h2
        · exact absurd h1.symm hc
        · exact h2
      exact ih _ h2

theorem pySplitOnce_dot_length (s : String) (h : '.' ∈ s.data) :
    (pySplitOnce "." s).length = 2 :=
  pySplitOnceAux_dot_length s.data [] h

theorem pySlice_of_pySlice (s : String) (c a b : Nat) (h : b ≤ c) :
    pySlice (pySlice s 0 c) a b = pySlice s a b := by
  unfold pySlice
  simp only [List.drop_zero, Nat.sub_zero]
  rw [List.drop_take, List.take_take]
  congr 2
  omega

/-! ### Claim theorems -/

/-- Claim C2: the AIL rule of the ORLine parser. For a pipe-split AIL line with
more than 3 fields and field 4 (index 3) called F: if F contains a dot,
"Cod Service Entree" is the trimmed text after the first dot up to the first
literal "^^^", and "Service Entree" is "^^^" followed by the trimmed first
caret component of the remainder when a "^^^" occurs, else the empty string;
if F has no dot, "Cod Service Entree" is F verbatim and "Service Entree" is
empty. -/
theorem claim_C2 (data : Dict) (champs : List String)
    (hseg : champs.headD "" = "AIL") (hlen : 3 < champs.length) :
    (('.' ∈ (champs.getD 3 "").data) →
      dget (orlineSeg data champs) "Cod Service Entree" =
        some (pyStrip ((pySplitOnce "^^^" ((pySplitOnce "." (champs.getD 3 "")).getD 1 "")).headD "")) ∧
      dget (orlineSeg data champs) "Service Entree" =
        some (if 1 < (pySplitOnce "^^^" ((pySplitOnce "." (champs.getD 3 "")).getD 1 "")).length
              then "^^^" ++ pyStrip ((pySplitChar '^'
                    ((pySplitOnce "^^^" ((pySplitOnce "." (champs.getD 3 "")).getD 1 "")).getD 1 "")).headD "")
              else "")) ∧
    (('.' ∉ (champs.getD 3 "").data) →
      dget (orlineSeg data champs) "Cod Service Entree" = some (champs.getD 3 "") ∧
      dget (orlineSeg data champs) "Service Entree" = some "") := by
  constructor
  · intro hdot
    have h2 : (pySplitOnce "." (champs.getD 3 "")).length = 2 :=
      pySplitOnce_dot_length _ hdot
    have hcont : (champs.getD 3 "").data.contains '.' = true := by simpa using hdot
    constructor
    · simp only [orlineSeg, hseg, String.reduceEq, reduceIte]
      rw [if_pos hlen, if_pos hcont, if_pos (show 1 < (pySplitOnce "." (champs.getD 3 "")).length by omega)]
      split
      · rw [dget_dinsert_ne _ _ _ _ (by decide), dget_dinsert_self]
      · rw [dget_dinsert_ne _ _ _ _ (by decide), dget_dinsert_self]
    · simp only [orlineSeg, hseg, String.reduceEq, reduceIte]
      rw [if_pos hlen, if_pos hcont, if_pos (show 1 < (pySplitOnce "." (champs.getD 3 "")).length by omega)]
      split
      · rw [dget_dinsert_self]
      · rw [dget_dinsert_self]
  · intro hdot
    constructor
    · simp only [orlineSeg, hseg, String.reduceEq, reduceIte]
      rw [if_pos hlen, if_neg (by simpa using hdot)]
      rw [dget_dinsert_ne _ _ _ _ (by decide), dget_dinsert_self]
    · simp only [orlineSeg, hseg, String.reduceEq, reduceIte]
      rw [if_pos hlen, if_neg (by simpa using hdot)]
      rw [dget_dinsert_self]

/-- Claim C3: the SCH date rule of the ORLine parser. For a pipe-split SCH line
with more than 11 fields, splitting field 12 (index 11) on carets: when there
are at least 4 components and component 4 (index 3) has at least 8 characters,
"Dat Operation" becomes day/month/year from its positions [6,8), [4,6), [0,4);
otherwise the line leaves "Dat Operation" unchanged. -/
theorem claim_C3 (data : Dict) (champs : List String)
    (hseg : champs.headD "" = "SCH") (hlen : 11 < champs.length) :
    (3 < (pySplitChar '^' (champs.getD 11 "")).length ∧
        8 ≤ ((pySplitChar '^' (champs.getD 11 "")).getD 3 "").length →
      dget (orlineSeg data champs) "Dat Operation" =
        some (pySlice ((pySplitChar '^' (champs.getD 11 "")).getD 3 "") 6 8 ++ "/" ++
              pySlice ((pySplitChar '^' (champs.getD 11 "")).getD 3 "") 4 6 ++ "/" ++
              pySlice ((pySplitChar '^' (champs.getD 11 "")).getD 3 "") 0 4)) ∧
    (¬(3 < (pySplitChar '^' (champs.getD 11 "")).length ∧
        8 ≤ ((pySplitChar '^' (champs.getD 11 "")).getD 3 "").length) →
      dget (orlineSeg data champs) "Dat Operation" = dget data "Dat Operation") := by
  have h1 : 1 < champs.length := by omega
  constructor
  · rintro ⟨hsub, hdt⟩
    simp only [orlineSeg, hseg, String.reduceEq, reduceIte]
    rw [if_pos h1, if_pos hlen, if_pos hsub,
      if_pos (show ((pySplitChar '^' (champs.getD 11 "")).getD 3 "").length ≥ 8 by omega)]
    rw [dget_dinsert_self]
    rw [pySlice_of_pySlice _ 8 6 8 (by omega), pySlice_of_pySlice _ 8 4 6 (by omega),
      pySlice_of_pySlice _ 8 0 4 (by omega)]
  · intro hfail
    simp only [orlineSeg, hseg, String.reduceEq, reduceIte]
    by_cases hsub : 3 < (pySplitChar '^' (champs.getD 11 "")).length
    · have hdt : ¬ ((pySplitChar '^' (champs.getD 11 "")).getD 3 "").length ≥ 8 := by
        intro h; exact hfail ⟨hsub, h⟩
      rw [if_pos h1, if_pos hlen, if_pos hsub, if_neg hdt,
        dget_dinsert_ne _ _ _ _ (by decide)]
    · rw [if_pos h1, if_pos hlen, if_neg hsub, dget_dinsert_ne _ _ _ _ (by decide)]

/-- Claim C4: the MSH rule of the WISH parser. For a pipe-split MSH line with
more than 6 fields and field 7 (index 6) called D of length at least 8:
"Date Message" is day/month/year from positions [6,8), [4,6), [0,4) of D, and
"Heure Message" is hh:mm from positions [8,10), [10,12) when D has at least 12
characters, else the empty string. -/
theorem claim_C4 (data : Dict) (champs : List String)
    (hseg : champs.headD "" = "MSH") (hlen : 6 < champs.length)
    (hD : 8 ≤ (champs.getD 6 "").length) :
    dget (wishSeg data champs) "Date Message" =
      some (pySlice (champs.getD 6 "") 6 8 ++ "/" ++ pySlice (champs.getD 6 "") 4 6 ++ "/" ++
            pySlice (champs.getD 6 "") 0 4) ∧
    dget (wishSeg data champs) "Heure Message" =
      some (if 12 ≤ (champs.getD 6 "").length
            then pySlice (champs.getD 6 "") 8 10 ++ ":" ++ pySlice (champs.getD 6 "") 10 12
            else "") := by
  constructor
  · simp only [wishSeg, hseg, String.reduceEq, reduceIte]
    rw [if_pos hlen, if_pos (show (champs.getD 6 "").length ≥ 8 by omega)]
    split
    · rw [dget_dinsert_ne _ _ _ _ (by decide), dget_dinsert_self]
    · rw [dget_dinsert_ne _ _ _ _ (by decide), dget_dinsert_self]
  · simp only [wishSeg, hseg, String.reduceEq, reduceIte]
    rw [if_pos hlen, if_pos (show (champs.getD 6 "").length ≥ 8 by omega)]
    split
    · rw [dget_dinsert_self]
    · rw [dget_dinsert_self]

/-- Witness for claim C2, at the two example fields of the specification:
"x.ABC^^^DEF^GHI" gives codes "ABC" and "^^^DEF"; "NODOT" gives "NODOT"
and the empty string. -/
theorem claim_C2_witness :
    dget (orlineSeg [] ["AIL", "a", "b", "x.ABC^^^DEF^GHI"]) "Cod Service Entree" = some "ABC" ∧
    dget (orlineSeg [] ["AIL", "a", "b", "x.ABC^^^DEF^GHI"]) "Service Entree" = some "^^^DEF" ∧
    dget (orlineSeg [] ["AIL", "a", "b", "NODOT"]) "Cod Service Entree" = some "NODOT" ∧
    dget (orlineSeg [] ["AIL", "a", "b", "NODOT"]) "Service Entree" = some "" := by
  have h1 := (claim_C2 [] ["AIL", "a", "b", "x.ABC^^^DEF^GHI"] (by decide) (by decide)).1 (by decide)
  have h2 := (claim_C2 [] ["AIL", "a", "b", "NODOT"] (by decide) (by decide)).2 (by decide)
  refine ⟨?_, ?_, ?_, ?_⟩
  · rw [h1.1]; decide
  · rw [h1.2]; decide
  · rw [h2.1]; decide
  · rw [h2.2]

/-- Witness for claim C3: a SCH line whose field 12 is "x^y^z^20230204105959"
yields "Dat Operation" = "04/02/2023"; one whose field 12 is "x^y" leaves
"Dat Operation" unset. -/
theorem claim_C3_witness :
    dget (orlineSeg [] ["SCH", "OP1", "a", "a", "a", "a", "a", "a", "a", "a", "a",
      "x^y^z^20230204105959"]) "Dat Operation" = some "04/02/2023" ∧
    dget (orlineSeg [] ["SCH", "OP1", "a", "a", "a", "a", "a", "a", "a", "a", "a",
      "x^y"]) "Dat Operation" = none := by
  have h1 := (claim_C3 [] ["SCH", "OP1", "a", "a", "a", "a", "a", "a", "a", "a", "a",
    "x^y^z^20230204105959"] (by decide) (by decide)).1 ⟨by decide, by decide⟩
  have h2 := (claim_C3 [] ["SCH", "OP1", "a", "a", "a", "a", "a", "a", "a", "a", "a",
    "x^y"] (by decide) (by decide)).2 (by decide)
  constructor
  · rw [h1]; decide
  · rw [h2]; decide

/-- Witness for claim C4, at the specification's example: MSH field 7 equal to
"20230115093000" yields "Date Message" = "15/01/2023" and "Heure Message" =
"09:30"; the 8-character "20230115" yields an empty "Heure Message". -/
theorem claim_C4_witness :
    dget (wishSeg [] ["MSH", "1", "2", "3", "4", "5", "20230115093000"]) "Date Message" =
      some "15/01/2023" ∧
    dget (wishSeg [] ["MSH", "1", "2", "3", "4", "5", "20230115093000"]) "Heure Message" =
      some "09:30" ∧
    dget (wishSeg [] ["MSH", "1", "2", "3", "4", "5", "20230115"]) "Heure Message" = some "" := by
  have h1 := claim_C4 [] ["MSH", "1", "2", "3", "4", "5", "20230115093000"]
    (by decide) (by decide) (by decide)
  have h2 := claim_C4 [] ["MSH", "1", "2", "3", "4", "5", "20230115"]
    (by decide) (by decide) (by decide)
  refine ⟨?_, ?_, ?_⟩
  · rw [h1.1]; decide
  · rw [h1.2]; decide
  · rw [h2.2]; decide

/-- Claim C6: overwrite policy of the ORLine parser. "Type d'hospitalisation"
is first-wins: a PV2 line sets it to the fixed annotation only when it is
unset, a PV2 line finding it set changes nothing, and no other segment kind
touches it. Every other attribute is last-wins: whenever a line's rule fires,
the extracted value replaces whatever the prior mapping held (for AIL, the
result is independent of the prior mapping). -/
theorem claim_C6 :
    (∀ (data : Dict) (champs : List String), champs.headD "" = "PV2" →
      dget data typeHospKey = none →
      dget (orlineSeg data champs) typeHospKey = some "(Donnée correcte extraite de PV1-2)") ∧
    (∀ (data : Dict) (champs : List String), champs.headD "" = "PV2" →
      (dget data typeHospKey).isSome → orlineSeg data champs = data) ∧
    (∀ (data : Dict) (champs : List String), champs.headD "" ≠ "PV2" →
      dget (orlineSeg data champs) typeHospKey = dget data typeHospKey) ∧
    (∀ (data : Dict) (champs : List String), champs.headD "" = "PID" → 2 < champs.length →
      dget (orlineSeg data champs) "ID PAT" = some (champs.getD 2 "")) ∧
    (∀ (data : Dict) (champs : List String), champs.headD "" = "PV1" → 2 < champs.length →
      dget (orlineSeg data champs) "Admission Entree" = some (champs.getD 2 "")) ∧
    (∀ (data : Dict) (champs : List String), champs.headD "" = "PV1" → 18 < champs.length →
      dget (orlineSeg data champs) "ID Sejour" = some (champs.getD 18 "")) ∧
    (∀ (data : Dict) (champs : List String), champs.headD "" = "SCH" → 1 < champs.length →
      dget (orlineSeg data champs) "ID Operation" =
        some ((pySplitChar '^' (champs.getD 1 "")).headD "")) ∧
    (∀ (data : Dict) (champs : List String), champs.headD "" = "OBX" → 1 < champs.length →
      champs.getD 1 "" = "2" → 5 < champs.length →
      dget (orlineSeg data champs) "Cod Service Entree" = some (champs.getD 5 "")) ∧
    (∀ (data : Dict) (champs : List String), champs.headD "" = "AIL" → 3 < champs.length →
      dget (orlineSeg data champs) "Cod Service Entree" =
        dget (orlineSeg [] champs) "Cod Service Entree" ∧
      dget (orlineSeg data champs) "Service Entree" =
        dget (orlineSeg [] champs) "Service Entree") := by
  refine ⟨?_, ?_, ?_, ?_, ?_, ?_, ?_, ?_, ?_⟩
  · intro data champs hseg h
    simp only [orlineSeg, hseg, String.reduceEq, reduceIte]
    rw [if_pos (by simp [h]), dget_dinsert_self]
  · intro data champs hseg h
    simp only [orlineSeg, hseg, String.reduceEq, reduceIte]
    have hnone : ¬ ((dget data typeHospKey).isNone = true) := by
      rw [Option.isNone_iff_eq_none]
      intro hn
      rw [hn] at h
      simp at h
    rw [if_neg hnone]
  · intro data champs hne
    simp only [orlineSeg]
    repeat' split
    all_goals try rfl
    all_goals (repeat rw [dget_dinsert_ne _ _ _ _ (by decide)])
  · intro data champs hseg hlen
    simp only [orlineSeg, hseg, String.reduceEq, reduceIte]
    rw [if_pos hlen, dget_dinsert_self]
  · intro data champs hseg hlen
    simp only [orlineSeg, hseg, String.reduceEq, reduceIte]
    rw [if_pos hlen]
    split
    · rw [dget_dinsert_ne _ _ _ _ (by decide), dget_dinsert_self]
    · rw [dget_dinsert_self]
  · intro data champs hseg hlen
    simp only [orlineSeg, hseg, String.reduceEq, reduceIte]
    rw [if_pos hlen, dget_dinsert_self]
  · intro data champs hseg hlen
    simp only [orlineSeg, hseg, String.reduceEq, reduceIte]
    rw [if_pos hlen]
    repeat' split
    all_goals first
      | rw [dget_dinsert_ne _ _ _ _ (by decide), dget_dinsert_self]
      | rw [dget_dinsert_self]
  · intro data champs hseg h1 hv h5
    simp only [orlineSeg, hseg, String.reduceEq, reduceIte]
    rw [if_pos h1, if_pos hv, if_pos h5, dget_dinsert_self]
  · intro data champs hseg hlen
    constructor
    all_goals simp only [orlineSeg, hseg, String.reduceEq, reduceIte]
    all_goals rw [if_pos hlen]
    all_goals repeat' split
    all_goals
      repeat first
        | rw [dget_dinsert_self]
        | rw [dget_dinsert_ne _ _ _ _ (by decide)]

/-- Witness for claim C6: concrete lines exercising each policy conjunct
(PV2 sets the annotation once and leaves a preset value alone; a PID line
does not touch it; every other rule overwrites a previously extracted value). -/
theorem claim_C6_witness :
    dget (orlineSeg [] ["PV2"]) typeHospKey = some "(Donnée correcte extraite de PV1-2)" ∧
    orlineSeg [(typeHospKey, "X")] ["PV2"] = [(typeHospKey, "X")] ∧
    dget (orlineSeg [(typeHospKey, "X")] ["PID", "a", "b"]) typeHospKey = some "X" ∧
    dget (orlineSeg [("ID PAT", "OLD")] ["PID", "a", "NEW"]) "ID PAT" = some "NEW" ∧
    dget (orlineSeg [("Admission Entree", "OLD")] ["PV1", "a", "NEW"]) "Admission Entree" =
      some "NEW" ∧
    dget (orlineSeg [("ID Sejour", "OLD")] ["PV1", "a", "a", "a", "a", "a", "a", "a", "a", "a",
      "a", "a", "a", "a", "a", "a", "a", "a", "S"]) "ID Sejour" = some "S" ∧
    dget (orlineSeg [("ID Operation", "OLD")] ["SCH", "OP123^extra"]) "ID Operation" =
      some "OP123" ∧
    dget (orlineSeg [("Cod Service Entree", "OLD")] ["OBX", "2", "c", "d", "e", "COD"])
      "Cod Service Entree" = some "COD" ∧
    dget (orlineSeg [("Cod Service Entree", "OLD")] ["AIL", "a", "b", "NODOT"])
      "Cod Service Entree" =
      dget (orlineSeg [] ["AIL", "a", "b", "NODOT"]) "Cod Service Entree" := by
  refine ⟨?_, ?_, ?_, ?_, ?_, ?_, ?_, ?_, ?_⟩
  · exact claim_C6.1 [] ["PV2"] (by decide) (by decide)
  · exact claim_C6.2.1 [(typeHospKey, "X")] ["PV2"] (by decide) (by decide)
  · rw [claim_C6.2.2.1 [(typeHospKey, "X")] ["PID", "a", "b"] (by decide)]; decide
  · rw [claim_C6.2.2.2.1 [("ID PAT", "OLD")] ["PID", "a", "NEW"] (by decide) (by decide)]
    decide
  · rw [claim_C6.2.2.2.2.1 [("Admission Entree", "OLD")] ["PV1", "a", "NEW"]
      (by decide) (by decide)]
    decide
  · rw [claim_C6.2.2.2.2.2.1 [("ID Sejour", "OLD")] ["PV1", "a", "a", "a", "a", "a", "a", "a",
      "a", "a", "a", "a", "a", "a", "a", "a", "a", "a", "S"] (by decide) (by decide)]
    decide
  · rw [claim_C6.2.2.2.2.2.2.1 [("ID Operation", "OLD")] ["SCH", "OP123^extra"]
      (by decide) (by decide)]
    decide
  · rw [claim_C6.2.2.2.2.2.2.2.1 [("Cod Service Entree", "OLD")] ["OBX", "2", "c", "d", "e",
      "COD"] (by decide) (by decide) (by decide) (by decide)]
    decide
  · exact (claim_C6.2.2.2.2.2.2.2.2 [("Cod Service Entree", "OLD")] ["AIL", "a", "b", "NODOT"]
      (by decide) (by decide)).1

theorem orlineSegE_eq (data : Dict) (champs : List String) (hne : champs ≠ []) :
    orlineSegE data champs = some (orlineSeg data champs) := by
  cases champs with
  | nil => exact absurd rfl hne
  | cons c cs =>
    simp only [orlineSegE, List.getElem?_cons_zero, Option.bind_eq_bind, Option.some_bind]
    by_cases h1 : c = "PID"
    · simp only [orlineSeg, List.headD_cons, h1, String.reduceEq, reduceIte]
      unfold orlinePidE
      repeat' (first
        | rw [getElem0_eq_headD _ (pySplitChar_ne_nil _ _)]
        | rw [getElem0_eq_headD _ (pySplitOnce_ne_nil _ _)]
        | rw [getElem?_eq_getD _ _ (by omega)]
        | simp only [Option.bind_eq_bind, Option.some_bind, Option.pure_def, List.length_cons, List.getElem?_cons_succ, List.getElem?_cons_zero, List.getD_cons_succ, List.getD_cons_zero]
        | split)
    · by_cases h2 : c = "PV1"
      · simp only [orlineSeg, List.headD_cons, h1, h2, String.reduceEq, reduceIte]
        unfold orlinePv1E
        repeat' (first
          | rw [getElem0_eq_headD _ (pySplitChar_ne_nil _ _)]
          | rw [getElem0_eq_headD _ (pySplitOnce_ne_nil _ _)]
          | rw [getElem?_eq_getD _ _ (by omega)]
          | simp only [Option.bind_eq_bind, Option.some_bind, Option.pure_def, List.length_cons, List.getElem?_cons_succ, List.getElem?_cons_zero, List.getD_cons_succ, List.getD_cons_zero]
          | split)
      · by_cases h3 : c = "SCH"
        · simp only [orlineSeg, List.headD_cons, h1, h2, h3, String.reduceEq, reduceIte]
          unfold orlineSchE
          repeat' (first
            | rw [getElem0_eq_headD _ (pySplitChar_ne_nil _ _)]
            | rw [getElem0_eq_headD _ (pySplitOnce_ne_nil _ _)]
            | rw [getElem?_eq_getD _ _ (by omega)]
            | simp only [Option.bind_eq_bind, Option.some_bind, Option.pure_def, List.length_cons, List.getElem?_cons_succ, List.getElem?_cons_zero, List.getD_cons_succ, List.getD_cons_zero]
            | split)
        · by_cases h4 : c = "OBX"
          · simp only [orlineSeg, List.headD_cons, h1, h2, h3, h4, String.reduceEq, reduceIte]
            unfold orlineObxE
            repeat' (first
              | rw [getElem0_eq_headD _ (pySplitChar_ne_nil _ _)]
              | rw [getElem0_eq_headD _ (pySplitOnce_ne_nil _ _)]
              | rw [getElem?_eq_getD _ _ (by omega)]
              | simp only [Option.bind_eq_bind, Option.some_bind, Option.pure_def, List.length_cons, List.getElem?_cons_succ, List.getElem?_cons_zero, List.getD_cons_succ, List.getD_cons_zero]
              | split)
          · by_cases h5 : c = "AIL"
            · simp only [orlineSeg, List.headD_cons, h1, h2, h3, h4, h5, String.reduceEq,
                reduceIte]
              unfold orlineAilE
              repeat' (first
                | rw [getElem0_eq_headD _ (pySplitChar_ne_nil _ _)]
                | rw [getElem0_eq_headD _ (pySplitOnce_ne_nil _ _)]
                | rw [getElem?_eq_getD _ _ (by omega)]
                | simp only [Option.bind_eq_bind, Option.some_bind, Option.pure_def, List.length_cons, List.getElem?_cons_succ, List.getElem?_cons_zero, List.getD_cons_succ, List.getD_cons_zero]
                | split)
            · by_cases h6 : c = "PV2"
              · simp only [orlineSeg, List.headD_cons, h1, h2, h3, h4, h5, h6, String.reduceEq,
                  reduceIte]
                unfold orlinePv2E
                split
                · rfl
                · rfl
              · simp only [orlineSeg, List.headD_cons, h1, h2, h3, h4, h5, h6, String.reduceEq,
                  reduceIte]
                rfl

theorem wishSegE_eq (data : Dict) (champs : List String) (hne : champs ≠ []) :
    wishSegE data champs = some (wishSeg data champs) := by
  cases champs with
  | nil => exact absurd rfl hne
  | cons c cs =>
    simp only [wishSegE, List.getElem?_cons_zero, Option.bind_eq_bind, Option.some_bind]
    by_cases h1 : c = "MSH"
    · simp only [wishSeg, List.headD_cons, h1, String.reduceEq, reduceIte, List.length_cons, List.getElem?_cons_succ, List.getElem?_cons_zero, List.getD_cons_succ, List.getD_cons_zero]
      unfold wishMshE
      repeat' (first
        | rw [getElem?_eq_getD _ _ (by omega)]
        | simp only [Option.bind_eq_bind, Option.some_bind, Option.pure_def, List.length_cons, List.getElem?_cons_succ, List.getElem?_cons_zero, List.getD_cons_succ, List.getD_cons_zero]
        | split)
    · by_cases h2 : c = "PID"
      · simp only [wishSeg, List.headD_cons, h1, h2, String.reduceEq, reduceIte, List.length_cons, List.getElem?_cons_succ, List.getElem?_cons_zero, List.getD_cons_succ, List.getD_cons_zero]
        unfold wishPidE
        repeat' (first
          | rw [getElem?_eq_getD _ _ (by omega)]
          | simp only [Option.bind_eq_bind, Option.some_bind, Option.pure_def, List.length_cons, List.getElem?_cons_succ, List.getElem?_cons_zero, List.getD_cons_succ, List.getD_cons_zero]
          | split)
      · simp only [wishSeg, List.headD_cons, h1, h2, String.reduceEq, reduceIte]
        rfl

theorem foldlM_orlineLineE (lines : List String) (data : Dict) :
    lines.foldlM orlineLineE data = some (lines.foldl orlineLine data) := by
  induction lines generalizing data with
  | nil => rfl
  | cons l ls ih =>
    have h : orlineLineE data l = some (orlineLine data l) :=
      orlineSegE_eq data (pySplitChar '|' (pyStrip l)) (pySplitChar_ne_nil _ _)
    simp [List.foldlM, List.foldl, h, ih]

theorem foldlM_wishLineE (lines : List String) (data : Dict) :
    lines.foldlM wishLineE data = some (lines.foldl wishLine data) := by
  induction lines generalizing data with
  | nil => rfl
  | cons l ls ih =>
    have h : wishLineE data l = some (wishLine data l) :=
      wishSegE_eq data (pySplitChar '|' (pyStrip l)) (pySplitChar_ne_nil _ _)
    simp [List.foldlM, List.foldl, h, ih]

/-- Claim C5: both variant detail parsers are total. Under the explicit-error
semantics, in which every Python list indexing yields none when out of bounds
(an IndexError), each parser agrees with its pure counterpart on every input
text — so it always returns a mapping and never raises — and a line whose
segment identifier matches no rule leaves the mapping unchanged. -/
theorem claim_C5 :
    (∀ t : String, parse_details_hl7_orlineE t = some (parse_details_hl7_orline t)) ∧
    (∀ t : String, parse_details_hl7_wishE t = some (parse_details_hl7_wish t)) ∧
    (∀ (data : Dict) (champs : List String), champs ≠ [] →
      champs.headD "" ∉ (["PID", "PV1", "SCH", "OBX", "AIL", "PV2"] : List String) →
      orlineSegE data champs = some data) ∧
    (∀ (data : Dict) (champs : List String), champs ≠ [] →
      champs.headD "" ∉ (["MSH", "PID"] : List String) →
      wishSegE data champs = some data) := by
  refine ⟨?_, ?_, ?_, ?_⟩
  · intro t
    exact foldlM_orlineLineE _ []
  · intro t
    exact foldlM_wishLineE _ []
  · intro data champs hne hmem
    cases champs with
    | nil => exact absurd rfl hne
    | cons c cs =>
      simp only [List.headD_cons, List.mem_cons, List.not_mem_nil, or_false, not_or] at hmem
      simp only [orlineSegE, List.getElem?_cons_zero, Option.bind_eq_bind, Option.some_bind]
      rw [if_neg hmem.1, if_neg hmem.2.1, if_neg hmem.2.2.1, if_neg hmem.2.2.2.1,
        if_neg hmem.2.2.2.2.1, if_neg hmem.2.2.2.2.2]
      rfl
  · intro data champs hne hmem
    cases champs with
    | nil => exact absurd rfl hne
    | cons c cs =>
      simp only [List.headD_cons, List.mem_cons, List.not_mem_nil, or_false, not_or] at hmem
      simp only [wishSegE, List.getElem?_cons_zero, Option.bind_eq_bind, Option.some_bind]
      rw [if_neg hmem.1, if_neg hmem.2]
      rfl

/-- Witness for claim C5: a concrete two-line ORLine message (one recognized
PID line, one unknown "ZZZ" line) parses without error under both semantics,
and unknown segment lines leave the mapping untouched. -/
theorem claim_C5_witness :
    parse_details_hl7_orlineE "PID|a|b\nZZZ|1" =
      some (parse_details_hl7_orline "PID|a|b\nZZZ|1") ∧
    orlineSegE [] ["ZZZ", "1"] = some [] ∧
    wishSegE [] ["QQQ"] = some [] := by
  refine ⟨claim_C5.1 _, ?_, ?_⟩
  · exact claim_C5.2.2.1 [] ["ZZZ", "1"] (by decide) (by decide)
  · exact claim_C5.2.2.2 [] ["QQQ"] (by decide) (by decide)

theorem wishSeg_dateHeure (data : Dict) (champs : List String)
    (h : (dget data "Date Message").isSome = (dget data "Heure Message").isSome) :
    (dget (wishSeg data champs) "Date Message").isSome
      = (dget (wishSeg data champs) "Heure Message").isSome := by
  simp only [wishSeg]
  repeat' split
  all_goals try exact h
  all_goals
    repeat first
      | rw [dget_dinsert_self]
      | rw [dget_dinsert_ne _ _ _ _ (by decide)]
  all_goals try exact h
  all_goals rfl

theorem foldl_wishLine_dateHeure (lines : List String) (data : Dict)
    (h : (dget data "Date Message").isSome = (dget data "Heure Message").isSome) :
    (dget (lines.foldl wishLine data) "Date Message").isSome
      = (dget (lines.foldl wishLine data) "Heure Message").isSome := by
  induction lines generalizing data with
  | nil => exact h
  | cons l ls ih =>
    simp only [List.foldl_cons]
    exact ih _ (wishSeg_dateHeure _ _ h)

/-- Claim C9: in every mapping returned by the WISH parser, "Date Message" is
present exactly when "Heure Message" is present: the MSH branch always sets
the two keys together (with "Heure Message" equal to the empty string when the
date-time field has 8 to 11 characters), and no other rule touches them. -/
theorem claim_C9 (t : String) :
    (dget (parse_details_hl7_wish t) "Date Message").isSome
      = (dget (parse_details_hl7_wish t) "Heure Message").isSome :=
  foldl_wishLine_dateHeure (pySplitlines (pyStrip t)) [] rfl

theorem pySplitlinesAux_ne_nil (l : List Char) :
    ∀ acc : List Char, acc ≠ [] ∨ l ≠ [] → pySplitlinesAux l acc ≠ [] := by
  induction l with
  | nil =>
    intro acc h
    rcases h with h | h
    · rw [pySplitlinesAux.eq_1]
      simp [h]
    · exact absurd rfl h
  | cons c rest ih =>
    intro acc _
    by_cases hr : c = '\r' ∧ ∃ rest2, rest = '\n' :: rest2
    · obtain ⟨hc, rest2, hrest⟩ := hr
      subst hc
      subst hrest
      rw [pySplitlinesAux.eq_2]
      simp
    · rw [pySplitlinesAux.eq_3 acc c rest (fun r2 hc hrest => hr ⟨hc, r2, hrest⟩)]
      split
      · simp
      · exact ih (c :: acc) (Or.inl (by simp))

theorem pySplitlines_ne_nil (s : String) (h : s ≠ "") : pySplitlines s ≠ [] := by
  apply pySplitlinesAux_ne_nil
  right
  intro hd
  apply h
  obtain ⟨d⟩ := s
  simp only at hd
  subst hd
  rfl

theorem pyStrip_eq_empty_iff (t : String) : pyStrip t = "" ↔ t.data.all pyIsSpace := by
  unfold pyStrip
  constructor
  · intro h
    have hd : ((t.data.dropWhile pyIsSpace).reverse.dropWhile pyIsSpace).reverse = [] := by
      have h2 := congrArg String.data h
      simpa using h2
    rw [List.reverse_eq_nil_iff, List.dropWhile_eq_nil_iff] at hd
    rw [List.all_eq_true]
    intro x hx
    rw [← List.takeWhile_append_dropWhile (p := pyIsSpace) (l := t.data)] at hx
    rcases List.mem_append.mp hx with hx | hx
    · exact List.mem_takeWhile_imp hx
    · exact hd x (List.mem_reverse.mpr hx)
  · intro h
    have h1 : t.data.dropWhile pyIsSpace = [] :=
      List.dropWhile_eq_nil_iff.mpr (fun x hx => List.all_eq_true.mp h x hx)
    rw [h1]
    rfl

/-- Claim C7: parse_full_hl7 fails exactly on empty or whitespace-only input
(Python max() raises ValueError on the empty row set), and succeeds whenever
the stripped text yields at least one line. -/
theorem claim_C7 (t : String) :
    (parse_full_hl7 t = none ↔ t.data.all pyIsSpace) ∧
    (pySplitlines (pyStrip t) ≠ [] → (parse_full_hl7 t).isSome) := by
  have hnone : parse_full_hl7 t = none ↔ pySplitlines (pyStrip t) = [] := by
    unfold parse_full_hl7
    cases h : pySplitlines (pyStrip t) with
    | nil => simp
    | cons a l => simp
  constructor
  · rw [hnone]
    constructor
    · intro h
      by_contra hall
      have hs : pyStrip t ≠ "" := fun he => hall ((pyStrip_eq_empty_iff t).mp he)
      exact pySplitlines_ne_nil _ hs h
    · intro h
      rw [(pyStrip_eq_empty_iff t).mpr h]
      rfl
  · intro h
    rw [← Option.ne_none_iff_isSome]
    intro hc
    exact h (hnone.mp hc)

/-- Witness for claim C7: a whitespace-only text fails to parse; a one-line
text parses to a table. -/
theorem claim_C7_witness :
    parse_full_hl7 "   " = none ∧ (parse_full_hl7 "PID|x").isSome := by
  constructor
  · exact (claim_C7 "   ").1.mpr (by decide)
  · exact (claim_C7 "PID|x").2 (by decide)

theorem dropWhile_append (p : Char → Bool) (l r : List Char) :
    (l ++ r).dropWhile p =
      if (l.dropWhile p).isEmpty then r.dropWhile p else l.dropWhile p ++ r := by
  induction l with
  | nil => simp
  | cons c cl ih =>
    by_cases hc : p c
    · simp [List.dropWhile_cons, hc, ih]
    · simp [List.dropWhile_cons, hc]

theorem pyStrip_pad (s : String) : pyStrip ("  " ++ s ++ "  ") = pyStrip s := by
  unfold pyStrip
  have hdata : ("  " ++ s ++ "  ").data = ' ' :: ' ' :: (s.data ++ [' ', ' ']) := by
    simp [String.data_append]
  rw [hdata]
  rw [List.dropWhile_cons_of_pos (by decide), List.dropWhile_cons_of_pos (by decide)]
  rw [dropWhile_append]
  by_cases h : s.data.dropWhile pyIsSpace = []
  · simp [h]
    rfl
  · rw [if_neg (by simp [h])]
    rw [List.reverse_append]
    simp only [List.reverse_cons, List.reverse_nil, List.nil_append, List.cons_append]
    rw [List.dropWhile_cons_of_pos (by decide), List.dropWhile_cons_of_pos (by decide)]

/-- Claim C10: each detail parser strips every individual line before splitting
it on pipes — so surrounding whitespace on a line does not change the
extraction — while parse_full_hl7 splits lines of the globally stripped text
without per-line stripping; on the text "X\n  PID|a|b  \nY" the Full Table row
keeps the padded fields "  PID" and "b  " while the ORLine parser still
recognizes the PID line and extracts the stripped "b". -/
theorem claim_C10 :
    (∀ (data : Dict) (ligne : String),
      orlineLine data ("  " ++ ligne ++ "  ") = orlineLine data ligne) ∧
    (∀ (data : Dict) (ligne : String),
      wishLine data ("  " ++ ligne ++ "  ") = wishLine data ligne) ∧
    (parse_full_hl7 "X\n  PID|a|b  \nY").map Table.rows =
      some [[some "X", some "", some ""], [some "  PID", some "a", some "b  "],
        [some "Y", some "", some ""]] ∧
    dget (parse_details_hl7_orline "X\n  PID|a|b  \nY") "ID PAT" = some "b" ∧
    (some "b  " : Option String) ≠ some "b" := by
  refine ⟨?_, ?_, by decide, by decide, by decide⟩
  · intro data ligne
    unfold orlineLine
    rw [pyStrip_pad]
  · intro data ligne
    unfold wishLine
    rw [pyStrip_pad]

theorem dedupFirst_acc_nodup (l : List String) :
    ∀ acc : List String, acc.Nodup →
      (l.foldl (fun acc x => if x ∈ acc then acc else acc ++ [x]) acc).Nodup := by
  induction l with
  | nil => intro acc h; exact h
  | cons x xs ih =>
    intro acc h
    simp only [List.foldl_cons]
    by_cases hx : x ∈ acc
    · rw [if_pos hx]
      exact ih acc h
    · rw [if_neg hx]
      exact ih _ (by simp [List.nodup_append, h, hx])

/-- Claim C8: the distinct-patient-id lookup of main. On the specification's
example records it returns ["A", "B"]; when no record carries an "ID PAT" key
it signals the "no patient identifiers found" condition instead of a value;
and any returned list is duplicate-free (first-seen order by construction). -/
theorem claim_C8 :
    distinctPatientIds [[("ID PAT", "A")], [("ID PAT", "B")], [("ID PAT", "A")]] =
      some ["A", "B"] ∧
    (∀ records : List Dict, (∀ r ∈ records, dget r "ID PAT" = none) →
      distinctPatientIds records = none) ∧
    (∀ (records : List Dict) (l : List String),
      distinctPatientIds records = some l → l.Nodup) := by
  refine ⟨by decide, ?_, ?_⟩
  · intro records h
    unfold distinctPatientIds
    rw [if_neg]
    intro hany
    rw [List.any_eq_true] at hany
    obtain ⟨r, hr, hs⟩ := hany
    rw [h r hr] at hs
    simp at hs
  · intro records l h
    unfold distinctPatientIds at h
    split at h
    · injection h with h2
      subst h2
      exact dedupFirst_acc_nodup _ [] List.nodup_nil
    · exact Option.noConfusion h

/-- Witness for claim C8: a record batch without "ID PAT" keys signals the
no-identifiers condition, and the example output list is duplicate-free. -/
theorem claim_C8_witness :
    distinctPatientIds [[("X", "1")]] = none ∧ (["A", "B"] : List String).Nodup := by
  constructor
  · exact claim_C8.2.1 [[("X", "1")]] (by decide)
  · exact claim_C8.2.2 [[("ID PAT", "A")], [("ID PAT", "B")], [("ID PAT", "A")]] ["A", "B"]
      (by decide)

theorem decVal_append (l : List Nat) (d : Nat) : decVal (l ++ [d]) = 10 * decVal l + d := by
  unfold decVal
  rw [List.foldl_append]
  rfl

theorem decVal_decDigitsAux : ∀ (fuel n : Nat), n ≤ fuel → decVal (decDigitsAux fuel n) = n := by
  intro fuel
  induction fuel with
  | zero =>
    intro n h
    have h0 : n = 0 := by omega
    subst h0
    rfl
  | succ f ih =>
    intro n h
    by_cases h0 : n = 0
    · subst h0
      rfl
    · rw [decDigitsAux, if_neg h0, decVal_append]
      have hdiv : n / 10 < n := Nat.div_lt_self (Nat.pos_of_ne_zero h0) (by decide)
      rw [ih (n / 10) (by omega)]
      omega

theorem decVal_decDigitsNat (n : Nat) : decVal (decDigitsNat n) = n := by
  unfold decDigitsNat
  by_cases h : n = 0
  · subst h
    rfl
  · rw [if_neg h]
    exact decVal_decDigitsAux n n le_rfl

theorem decDigitsAux_lt10 : ∀ (fuel n : Nat), ∀ d ∈ decDigitsAux fuel n, d < 10 := by
  intro fuel
  induction fuel with
  | zero => intro n d hd; simp [decDigitsAux] at hd
  | succ f ih =>
    intro n d hd
    rw [decDigitsAux] at hd
    split at hd
    · simp at hd
    · rcases List.mem_append.mp hd with hd | hd
      · exact ih _ _ hd
      · rw [List.mem_singleton.mp hd]
        exact Nat.mod_lt _ (by decide)

theorem decDigitsNat_lt10 (n : Nat) : ∀ d ∈ decDigitsNat n, d < 10 := by
  intro d hd
  unfold decDigitsNat at hd
  split at hd
  · rw [List.mem_singleton.mp hd]
    decide
  · exact decDigitsAux_lt10 _ _ _ hd

theorem digitToChar_inj : ∀ d1 < 10, ∀ d2 < 10,
    digitToChar d1 = digitToChar d2 → d1 = d2 := by decide

theorem map_digitToChar_inj : ∀ l1 l2 : List Nat, (∀ d ∈ l1, d < 10) → (∀ d ∈ l2, d < 10) →
    l1.map digitToChar = l2.map digitToChar → l1 = l2 := by
  intro l1
  induction l1 with
  | nil =>
    intro l2 _ _ h
    cases l2 with
    | nil => rfl
    | cons e l2' => simp at h
  | cons d l ih =>
    intro l2 h1 h2 h
    cases l2 with
    | nil => simp at h
    | cons e l2' =>
      simp only [List.map_cons, List.cons.injEq] at h
      have hde : d = e := digitToChar_inj d (h1 d (by simp)) e (h2 e (by simp)) h.1
      subst hde
      rw [ih l2' (fun x hx => h1 x (by simp [hx])) (fun x hx => h2 x (by simp [hx])) h.2]

theorem decStr_inj (m n : Nat) (h : (decStr m).data = (decStr n).data) : m = n := by
  unfold decStr at h
  simp only at h
  have h2 := map_digitToChar_inj _ _ (decDigitsNat_lt10 m) (decDigitsNat_lt10 n) h
  have h3 := congrArg decVal h2
  rwa [decVal_decDigitsNat, decVal_decDigitsNat] at h3

theorem colName_inj : Function.Injective colName := by
  intro i j h
  unfold colName at h
  have hd := congrArg String.data h
  rw [String.data_append, String.data_append] at hd
  have h2 := List.append_cancel_left hd
  have := decStr_inj (i + 1) (j + 1) h2
  omega

theorem colName_ne_fichier (i : Nat) : colName i ≠ "Fichier" := by
  intro h
  have hd := congrArg String.data h
  unfold colName at hd
  rw [String.data_append] at hd
  rw [show ("Field " : String).data = ['F', 'i', 'e', 'l', 'd', ' '] from rfl] at hd
  rw [show ("Fichier" : String).data = ['F', 'i', 'c', 'h', 'i', 'e', 'r'] from rfl] at hd
  simp at hd

theorem fieldCols_nodup (m : Nat) : (fieldCols m).Nodup :=
  (List.nodup_range m).map colName_inj

theorem mem_fieldCols (m : Nat) (x : String) :
    x ∈ fieldCols m ↔ ∃ i, i < m ∧ x = colName i := by
  unfold fieldCols
  simp only [List.mem_map, List.mem_range]
  constructor
  · rintro ⟨i, hi, rfl⟩
    exact ⟨i, hi, rfl⟩
  · rintro ⟨i, hi, rfl⟩
    exact ⟨i, hi, rfl⟩

theorem foldl_max_init (l : List Nat) (a : Nat) : a ≤ l.foldl max a := by
  induction l generalizing a with
  | nil => exact le_rfl
  | cons x xs ih =>
    simp only [List.foldl_cons]
    exact le_trans (Nat.le_max_left a x) (ih (max a x))

theorem foldl_max_mem_le (l : List Nat) (a : Nat) : ∀ x ∈ l, x ≤ l.foldl max a := by
  induction l generalizing a with
  | nil => intro x hx; simp at hx
  | cons y ys ih =>
    intro x hx
    simp only [List.foldl_cons]
    rcases List.mem_cons.mp hx with h | h
    · subst h
      exact le_trans (Nat.le_max_right a x) (foldl_max_init ys (max a x))
    · exact ih (max a y) x h

theorem foldl_max_attained (l : List Nat) (a : Nat) :
    l.foldl max a = a ∨ l.foldl max a ∈ l := by
  induction l generalizing a with
  | nil => left; rfl
  | cons x xs ih =>
    simp only [List.foldl_cons]
    rcases ih (max a x) with h | h
    · by_cases hax : a ≤ x
      · right
        rw [h, Nat.max_eq_right hax]
        exact List.mem_cons_self x xs
      · left
        rw [h, Nat.max_eq_left (Nat.le_of_not_le hax)]
    · right
      exact List.mem_cons_of_mem x h

theorem mem_colsUnion_aux (ts : List Table) :
    ∀ (acc : List String) (x : String),
      (x ∈ ts.foldl (fun acc t => acc ++ t.cols.filter (fun c => ! acc.contains c)) acc) ↔
        x ∈ acc ∨ ∃ t ∈ ts, x ∈ t.cols := by
  induction ts with
  | nil => intro acc x; simp
  | cons t ts ih =>
    intro acc x
    simp only [List.foldl_cons]
    rw [ih]
    by_cases hx : x ∈ acc
    · simp [hx]
    · simp [hx, List.mem_filter]

theorem mem_colsUnion (ts : List Table) (x : String) :
    x ∈ colsUnion ts ↔ ∃ t ∈ ts, x ∈ t.cols := by
  unfold colsUnion
  rw [mem_colsUnion_aux]
  simp

theorem nodup_colsUnion (ts : List Table) (hts : ∀ t ∈ ts, t.cols.Nodup) :
    (colsUnion ts).Nodup := by
  unfold colsUnion
  suffices h : ∀ (ts' : List Table) (acc : List String), acc.Nodup →
      (∀ t ∈ ts', t.cols.Nodup) →
      (ts'.foldl (fun acc t => acc ++ t.cols.filter (fun c => ! acc.contains c)) acc).Nodup by
    exact h ts [] List.nodup_nil hts
  intro ts'
  induction ts' with
  | nil => intro acc h _; exact h
  | cons t rest ih =>
    intro acc h hts'
    simp only [List.foldl_cons]
    apply ih
    · rw [List.nodup_append]
      refine ⟨h, (hts' t (by simp)).filter _, ?_⟩
      intro a ha hb
      rw [List.mem_filter] at hb
      have hc : a ∉ acc := by simpa using hb.2
      exact hc ha
    · intro t' ht'
      exact hts' t' (by simp [ht'])

theorem concatRows_length (ts : List Table) (cols : List String) :
    ∀ r ∈ ts.foldr
        (fun t acc => t.rows.map (fun r0 => cols.map (rowLookup t.cols r0)) ++ acc) [],
      r.length = cols.length := by
  induction ts with
  | nil => intro r hr; simp at hr
  | cons t ts ih =>
    intro r hr
    simp only [List.foldr_cons] at hr
    rcases List.mem_append.mp hr with hr | hr
    · obtain ⟨r0, -, rfl⟩ := List.mem_map.mp hr
      exact List.length_map _ _
    · exact ih r hr

theorem parse_full_hl7_spec (text : String) (tab : Table)
    (h : parse_full_hl7 text = some tab) :
    tab.cols = fieldCols (msgMaxFields text) ∧
    (∀ r ∈ tab.rows, r.length = msgMaxFields text ∧ ∀ cell ∈ r, cell.isSome) ∧
    (∀ line ∈ pySplitlines (pyStrip text),
      (pySplitChar '|' line ++
        List.replicate (msgMaxFields text - (pySplitChar '|' line).length) "").map some
        ∈ tab.rows) := by
  unfold parse_full_hl7 at h
  cases hl : pySplitlines (pyStrip text) with
  | nil => rw [hl] at h; simp at h
  | cons a ls =>
    rw [hl] at h
    have hmsg : msgMaxFields text =
        (((a :: ls).map (fun l => pySplitChar '|' l)).map List.length).foldl max 0 := by
      unfold msgMaxFields
      rw [hl, List.map_map]
      rfl
    cases hrl : (a :: ls).map (fun l => pySplitChar '|' l) with
    | nil => simp at hrl
    | cons r0 rs =>
      rw [hrl] at h hmsg
      simp only at h
      injection h with h
      subst h
      refine ⟨?_, ?_, ?_⟩
      · rw [hmsg]
        rfl
      · intro r hr
        simp only at hr
        obtain ⟨padded0, hp0, rfl⟩ := List.mem_map.mp hr
        obtain ⟨row0, hrow0, rfl⟩ := List.mem_map.mp hp0
        constructor
        · rw [List.length_map, List.length_append, List.length_replicate, hmsg]
          have hle : row0.length ≤ ((r0 :: rs).map List.length).foldl max 0 := by
            apply foldl_max_mem_le
            exact List.mem_map_of_mem List.length hrow0
          omega
        · intro cell hc
          obtain ⟨y, -, rfl⟩ := List.mem_map.mp hc
          rfl
      · intro line hline
        have h1 : pySplitChar '|' line ∈ r0 :: rs := by
          rw [← hrl]
          exact List.mem_map_of_mem _ hline
        rw [hmsg]
        simp only
        exact List.mem_map_of_mem _ (List.mem_map_of_mem _ h1)

theorem buildTables_spec : ∀ (files : List (String × String)) (ts : List Table),
    buildTables files = some ts →
    ts.map Table.cols = files.map (fun p => fieldCols (msgMaxFields p.2) ++ ["Fichier"]) ∧
    (∀ t ∈ ts, ∀ r ∈ t.rows, r.length = t.cols.length ∧ ∀ cell ∈ r, cell.isSome) := by
  intro files
  induction files with
  | nil =>
    intro ts h
    unfold buildTables at h
    injection h with h
    subst h
    simp
  | cons p rest ih =>
    intro ts h
    obtain ⟨name, text⟩ := p
    unfold buildTables at h
    cases hp : parse_full_hl7 text with
    | none => rw [hp] at h; simp at h
    | some tab =>
      cases hr : buildTables rest with
      | none => rw [hp, hr] at h; simp at h
      | some ts' =>
        rw [hp, hr] at h
        injection h with h
        subst h
        obtain ⟨hcols, hrows, -⟩ := parse_full_hl7_spec _ _ hp
        obtain ⟨ihcols, ihrows⟩ := ih ts' hr
        constructor
        · simp only [List.map_cons, ihcols, addFichier, hcols]
        · intro t ht r hrr
          rcases List.mem_cons.mp ht with h1 | h1
          · subst h1
            obtain ⟨r0, hr0, rfl⟩ := List.mem_map.mp hrr
            have hspec := hrows r0 hr0
            constructor
            · rw [List.length_append, List.length_singleton, hspec.1]
              show msgMaxFields text + 1 = (tab.cols ++ ["Fichier"]).length
              rw [List.length_append, List.length_singleton, hcols]
              simp [fieldCols]
            · intro cell hc
              rcases List.mem_append.mp hc with hc | hc
              · exact hspec.2 cell hc
              · rw [List.mem_singleton.mp hc]
                rfl
          · exact ihrows t h1 r hrr

theorem colsUnion_length (ts : List Table) (ms : List Nat)
    (h : ts.map Table.cols = ms.map (fun m => fieldCols m ++ ["Fichier"]))
    (hne : ts ≠ []) :
    (colsUnion ts).length = ms.foldl max 0 + 1 := by
  have hshape : ∀ t ∈ ts, ∃ m ∈ ms, t.cols = fieldCols m ++ ["Fichier"] := by
    intro t ht
    have h1 : t.cols ∈ ms.map (fun m => fieldCols m ++ ["Fichier"]) := by
      rw [← h]
      exact List.mem_map_of_mem _ ht
    obtain ⟨m, hm, he⟩ := List.mem_map.mp h1
    exact ⟨m, hm, he.symm⟩
  have hcolsnodup : ∀ t ∈ ts, t.cols.Nodup := by
    intro t ht
    obtain ⟨m, -, he⟩ := hshape t ht
    rw [he, List.nodup_append]
    refine ⟨fieldCols_nodup m, List.nodup_singleton _, ?_⟩
    intro x hx
    obtain ⟨i, -, rfl⟩ := (mem_fieldCols m x).mp hx
    simp [colName_ne_fichier i]
  have hN : (colsUnion ts).Nodup := nodup_colsUnion ts hcolsnodup
  have htarget : (fieldCols (ms.foldl max 0) ++ ["Fichier"]).Nodup := by
    rw [List.nodup_append]
    refine ⟨fieldCols_nodup _, List.nodup_singleton _, ?_⟩
    intro x hx
    obtain ⟨i, -, rfl⟩ := (mem_fieldCols _ x).mp hx
    simp [colName_ne_fichier i]
  have hmem : ∀ x, x ∈ colsUnion ts ↔ x ∈ fieldCols (ms.foldl max 0) ++ ["Fichier"] := by
    intro x
    rw [mem_colsUnion, List.mem_append]
    constructor
    · rintro ⟨t, ht, hx⟩
      obtain ⟨m, hm, he⟩ := hshape t ht
      rw [he, List.mem_append] at hx
      rcases hx with hx | hx
      · left
        obtain ⟨i, hi, rfl⟩ := (mem_fieldCols m x).mp hx
        exact (mem_fieldCols _ _).mpr ⟨i, lt_of_lt_of_le hi (foldl_max_mem_le ms 0 m hm), rfl⟩
      · right
        exact hx
    · rintro (hx | hx)
      · obtain ⟨i, hi, rfl⟩ := (mem_fieldCols _ _).mp hx
        rcases foldl_max_attained ms 0 with hM | hM
        · exact absurd hi (by omega)
        · have h2 : fieldCols (ms.foldl max 0) ++ ["Fichier"] ∈ ts.map Table.cols := by
            rw [h]
            exact List.mem_map_of_mem _ hM
          obtain ⟨t, ht, he⟩ := List.mem_map.mp h2
          refine ⟨t, ht, ?_⟩
          show colName i ∈ t.cols
          have he2 : t.cols = fieldCols (ms.foldl max 0) ++ ["Fichier"] := he
          rw [he2, List.mem_append]
          left
          exact (mem_fieldCols _ _).mpr ⟨i, hi, rfl⟩
      · rw [List.mem_singleton] at hx
        subst hx
        cases ts with
        | nil => exact absurd rfl hne
        | cons t0 ts' =>
          obtain ⟨m, -, he⟩ := hshape t0 (by simp)
          exact ⟨t0, by simp, by rw [he]; simp⟩
  have e1 := List.toFinset_card_of_nodup hN
  have e2 := List.toFinset_card_of_nodup htarget
  have hfs : (colsUnion ts).toFinset = (fieldCols (ms.foldl max 0) ++ ["Fichier"]).toFinset := by
    apply Finset.ext
    intro x
    simp only [List.mem_toFinset]
    exact hmem x
  rw [hfs, e2] at e1
  rw [← e1, List.length_append, List.length_singleton]
  simp [fieldCols]

/-- Counterexample to claim C1 as stated: concatenating the Full Tables of the
two one-line messages "A|B" and "A" leaves the second row's "Field 2" cell as
a null/absent value (pandas NaN), not the empty string the claim requires. -/
theorem claim_C1_counterexample :
    (fullPipeline [("f1", "A|B"), ("f2", "A")]).map Table.rows =
      some [[some "A", some "B", some "f1"], [some "A", none, some "f2"]] ∧
    (none : Option String) ≠ some "" := ⟨by decide, by decide⟩

/-- Claim C1, amended: in the combined Full Table of a batch, every row has
the same cell count, equal to the number of columns, and the number of columns
is the maximum pipe-split field count over all lines of all messages plus the
"Fichier" column. Within a single message's table every cell is a present
string and each line appears right-padded with empty strings; but cells of
columns that a message's own table lacks are filled with a null/absent value
by the concatenation, not with the empty string. -/
theorem claim_C1_amended (files : List (String × String)) (t : Table)
    (h : fullPipeline files = some t) :
    (∀ r ∈ t.rows, r.length = t.cols.length) ∧
    t.cols.length = (files.map (fun p => msgMaxFields p.2)).foldl max 0 + 1 ∧
    (∀ (text : String) (tab : Table), parse_full_hl7 text = some tab →
      (∀ r ∈ tab.rows, ∀ cell ∈ r, cell.isSome) ∧
      ∀ line ∈ pySplitlines (pyStrip text),
        (pySplitChar '|' line ++
          List.replicate (msgMaxFields text - (pySplitChar '|' line).length) "").map some
          ∈ tab.rows) := by
  unfold fullPipeline at h
  cases hb : buildTables files with
  | none => rw [hb] at h; simp at h
  | some ts =>
    rw [hb] at h
    cases ts with
    | nil => simp at h
    | cons t0 ts' =>
      change some (concatTables (t0 :: ts')) = some t at h
      injection h with h
      subst h
      have hbs := buildTables_spec files _ hb
      refine ⟨?_, ?_, ?_⟩
      · intro r hr
        exact concatRows_length (t0 :: ts') (colsUnion (t0 :: ts')) r hr
      · show (colsUnion (t0 :: ts')).length = _
        apply colsUnion_length (t0 :: ts') (files.map (fun p => msgMaxFields p.2))
        · rw [hbs.1, List.map_map]
          rfl
        · simp
      · intro text tab hp
        obtain ⟨-, hrows2, hlines⟩ := parse_full_hl7_spec text tab hp
        exact ⟨fun r hr cell hc => (hrows2 r hr).2 cell hc, hlines⟩

/-- Witness for the amended claim C1, on the batch of messages "A|B" and "A":
the combined table is computed explicitly and its column count is the batch
maximum field count 2 plus the "Fichier" column. -/
theorem claim_C1_witness :
    fullPipeline [("f1", "A|B"), ("f2", "A")] =
      some ⟨["Field 1", "Field 2", "Fichier"],
        [[some "A", some "B", some "f1"], [some "A", none, some "f2"]]⟩ ∧
    (⟨["Field 1", "Field 2", "Fichier"],
        [[some "A", some "B", some "f1"], [some "A", none, some "f2"]]⟩ : Table).cols.length =
      ([("f1", "A|B"), ("f2", "A")].map (fun p => msgMaxFields p.2)).foldl max 0 + 1 := by
  have hpipe : fullPipeline [("f1", "A|B"), ("f2", "A")] =
      some ⟨["Field 1", "Field 2", "Fichier"],
        [[some "A", some "B", some "f1"], [some "A", none, some "f2"]]⟩ := by decide
  exact ⟨hpipe, (claim_C1_amended [("f1", "A|B"), ("f2", "A")] _ hpipe).2.1⟩

end DA
